import Mathlib

/-!
Verification of the path-safety and command-execution core of the
`mcp-macos-dev-server` repository (`src/core/paths.ts`, `src/core/exec.ts`,
`src/core/types.ts`, `src/config.ts`).

Strings are modelled as `List Char` (JavaScript strings are sequences of
code units; the claims under study never depend on surrogate pairs, so a
character list is a faithful model).  Filesystem state and subprocess
outcomes are modelled explicitly, so every function of the source becomes a
pure Lean function.
-/

/-- JavaScript strings are modelled as lists of characters. -/
abbrev Str := List Char

/-- Coerce a Lean string literal into the model. -/
def str (s : String) : Str := s.toList

/-- JS `a.startsWith(b)` on strings. -/
def jsStartsWith (s pre : Str) : Bool := pre.isPrefixOf s

/-!
## Path safety (`src/core/paths.ts`, `resolveSafePath`)

`resolveSafePath` first computes `resolved = path.resolve(base, inputPath)`
and then checks `ALLOWED_ROOTS.some((root) => resolved.startsWith(path.resolve(root)))`.
We model the function on the already-resolved absolute path (`path.resolve`
of an absolute, normalized path is the identity, and the configured roots
are absolute and normalized, see `src/config.ts` `getAllowedRoots`), so the
membership check is exactly the JS `String.startsWith` test of the source.
Throwing the `Access denied` error is modelled by returning `none`.
-/

/-- The `ALLOWED_ROOTS.some(...)` test of `resolveSafePath` (line 26-29 of
`src/core/paths.ts`): a naive string-prefix check. -/
def resolveSafePathCheck (roots : List Str) (resolved : Str) : Bool :=
  roots.any (fun root => jsStartsWith resolved root)

/-- `resolveSafePath` on an already-resolved absolute path: returns the path
if the check passes, models the thrown `Access denied` error as `none`. -/
def resolveSafePath (roots : List Str) (resolved : Str) : Option Str :=
  if resolveSafePathCheck roots resolved then some resolved else none

/-- Modelled from the spec (section 3, AllowedRoots invariant): a
directory-boundary aware containment test — the path equals the root or
extends it at a `/` path-segment boundary.  This is the behaviour the spec
demands of `resolveSafePath`; it is *not* what the source implements. -/
def underRootSpec (root p : Str) : Bool :=
  decide (p = root) || jsStartsWith p (root ++ str "/")

/-- A path is spec-allowed when some configured root contains it
segment-wise. -/
def specAllowed (roots : List Str) (p : Str) : Bool :=
  roots.any (fun root => underRootSpec root p)

/-!
## Command execution (`src/core/exec.ts`)

`execCommand` is `async` only because of the subprocess; all its decision
logic is pure.  We split it into a pure pre-spawn phase `execCommandPre`
(safety guard, then dry-run — everything that runs *before*
`execAsync` is reached) and a post-spawn phase that interprets the outcome
of `execAsync`, which we model as an explicit `ExecOutcome` value:
`ok stdout stderr` for a fulfilled promise, and
`error killed signal stdout stderr message code` for a rejection `err`
carrying `err.killed`, `err.signal`, `err.stdout`, `err.stderr`,
`err.message` and `err.code` (absent string fields are the empty string,
matching the `|| ""` / `||` coalescing of the source; `err.code` absent is
`none`, matching `??`).  A process is spawned exactly when the pre-spawn
phase falls through, i.e. `execCommandPre` returns `none`.

Danger patterns are regular expressions in the source; we model a pattern
as its matching function together with its printed source text (the
`${pattern}` interpolation used in the block message).
-/

/-- A dangerous-command pattern: its `test` function and its source text. -/
structure DangerPat where
  test : Str → Bool
  source : Str

/-- `checkCommandSafety` (lines 149-156 of `src/core/exec.ts`): first
matching pattern produces the block message, otherwise `undefined`. -/
def checkCommandSafety (pats : List DangerPat) (command : Str) : Option Str :=
  match pats with
  | [] => none
  | p :: rest =>
    if p.test command then
      some (str "Command blocked: potentially dangerous pattern detected ("
            ++ p.source ++ str ")")
    else checkCommandSafety rest command

/-- The fixed truncation marker `"\n\n... [output truncated] ...\n\n"`. -/
def truncMarker : Str := str "\n\n... [output truncated] ...\n\n"

/-- JS `s.slice(-half)`.  For `half > 0` this is the last `half` characters
(the whole string when `half ≥ s.length`); for `half = 0` the argument is
`-0 = 0`, so JS returns the *entire* string, not the empty one. -/
def jsSliceNeg (s : Str) (half : Nat) : Str :=
  if half = 0 then s else s.drop (s.length - half)

/-- `truncateOutput` (lines 165-180 of `src/core/exec.ts`). -/
def truncateOutput (output : Str) (maxChars : Nat) : Str × Bool :=
  if output.length ≤ maxChars then (output, false)
  else
    let half := maxChars / 2
    (output.take half ++ truncMarker ++ jsSliceNeg output half, true)

/-- `CommandOptions` (`src/core/types.ts`) after the destructuring defaults
of `execCommand` have been applied. -/
structure CommandOptions where
  command : Str
  cwd : Str
  timeout_seconds : Nat
  max_output_chars : Nat
  dry_run : Bool
deriving DecidableEq

/-- `CommandResult` (`src/core/types.ts`). -/
structure CommandResult where
  stdout : Str
  stderr : Str
  exit_code : Int
  timed_out : Bool
  cwd : Str
  truncated : Bool
  warning : Option Str
deriving DecidableEq

/-- Outcome of the `execAsync` call: fulfilled with output streams, or
rejected with an error object carrying the listed fields. -/
inductive ExecOutcome where
  | ok (stdout stderr : Str)
  | error (killed : Bool) (signal : Option Str) (stdout stderr message : Str)
      (code : Option Int)
deriving DecidableEq

/-- JS `a || b` on strings: the empty string is falsy. -/
def jsOr (a b : Str) : Str := if a.isEmpty then b else a

/-- The `[DRY RUN]` warning string built at line 222 of `src/core/exec.ts`. -/
def dryRunWarning (command cwd : Str) : Str :=
  str "[DRY RUN] Would execute: " ++ command ++ str " (in " ++ cwd ++ str ")"

/-- The synthetic timeout message built at line 245 of `src/core/exec.ts`. -/
def timeoutMsg (timeout_seconds : Nat) : Str :=
  str "Command timed out after " ++ str (toString timeout_seconds)
    ++ str " seconds"

/-- Pre-spawn phase of `execCommand` (lines 199-224): the safety guard,
then dry-run.  Returns `some result` when the function returns without
reaching `execAsync`, `none` when it falls through to the spawn. -/
def execCommandPre (pats : List DangerPat) (opts : CommandOptions) :
    Option CommandResult :=
  match checkCommandSafety pats opts.command with
  | some safetyWarning =>
    some { stdout := [], stderr := [], exit_code := -1, timed_out := false,
           cwd := opts.cwd, truncated := false, warning := some safetyWarning }
  | none =>
    if opts.dry_run then
      some { stdout := [], stderr := [], exit_code := 0, timed_out := false,
             cwd := opts.cwd, truncated := false,
             warning := some (dryRunWarning opts.command opts.cwd) }
    else none

/-- `execCommand` spawns a subprocess exactly when its pre-spawn phase
falls through. -/
def spawnsProcess (pats : List DangerPat) (opts : CommandOptions) : Bool :=
  (execCommandPre pats opts).isNone

/-- `execCommand` (lines 188-267 of `src/core/exec.ts`), with the result of
`execAsync` supplied as an explicit `ExecOutcome`.  The catch branch
distinguishes `err.killed || err.signal === "SIGTERM"` (timeout handling:
discard streams, synthesize stderr, keep `exitCode = 0`) from every other
rejection (carry `err.stdout`/`err.stderr`/`err.message`, exit code
`err.code ?? 1`); both streams then pass through `truncateOutput`. -/
def execCommand (pats : List DangerPat) (opts : CommandOptions)
    (outcome : ExecOutcome) : CommandResult :=
  match execCommandPre pats opts with
  | some r => r
  | none =>
    let (timedOut, stdout0, stderr0, exitCode) :=
      match outcome with
      | ExecOutcome.ok out err => (false, out, err, (0 : Int))
      | ExecOutcome.error killed signal so se msg code =>
        if killed = true ∨ signal = some (str "SIGTERM") then
          (true, ([] : Str), timeoutMsg opts.timeout_seconds, (0 : Int))
        else
          (false, jsOr so [], jsOr se (jsOr msg (str "Unknown error")),
           code.getD 1)
    let stdoutResult := truncateOutput stdout0 opts.max_output_chars
    let stderrResult := truncateOutput stderr0 opts.max_output_chars
    { stdout := stdoutResult.1, stderr := stderrResult.1,
      exit_code := exitCode, timed_out := timedOut, cwd := opts.cwd,
      truncated := stdoutResult.2 || stderrResult.2, warning := none }

/-!
## Marker search (`src/core/paths.ts`, `findDirectoriesWithMarker`)

The filesystem is modelled as a finite tree.  A directory node carries a
`readable` flag and its named entries.  `fs.existsSync(path.join(dir, m))`
is modelled as "the directory is readable and has an entry named `m`"
(an unreadable — permission-000 — directory cannot be statted into, so
`existsSync` of its children reports `false`); `fs.readdirSync` on an
unreadable directory throws, which the source catches after having pushed
nothing, so an unreadable directory contributes the empty result.
`path.join(a, b)` on a clean directory path and a plain name is `a ++ "/"
++ b`.
-/

mutual
/-- A filesystem node: a plain file, or a directory with a readability
flag and a list of named children. -/
inductive FSNode where
  | file : FSNode
  | dir (readable : Bool) (entries : FSEntries) : FSNode

/-- The entry list of a directory: pairs of a name and a child node. -/
inductive FSEntries where
  | nil : FSEntries
  | cons (name : Str) (child : FSNode) (rest : FSEntries) : FSEntries
end

/-- `entry.isDirectory()`. -/
def FSNode.isDir : FSNode → Bool
  | FSNode.file => false
  | FSNode.dir _ _ => true

/-- Whether the entry list has an entry with the given name
(`fs.existsSync(path.join(rootPath, marker))` inside a readable dir). -/
def hasEntry : FSEntries → Str → Bool
  | FSEntries.nil, _ => false
  | FSEntries.cons nm _ rest, target =>
    if nm = target then true else hasEntry rest target

/-- `entry.name.startsWith(".")`. -/
def startsWithDot (nm : Str) : Bool := jsStartsWith nm (str ".")

mutual
/-- `findDirectoriesWithMarker` (lines 80-120 of `src/core/paths.ts`),
with the filesystem tree made explicit: depth cutoff, marker check with
early return (no descent), then the loop over subdirectory entries. -/
def findDirectoriesWithMarker (node : FSNode) (rootPath marker : Str)
    (maxDepth currentDepth : Nat) : List Str :=
  if currentDepth > maxDepth then []
  else
    match node with
    | FSNode.file => []
    | FSNode.dir readable entries =>
      if readable then
        if hasEntry entries marker then [rootPath]
        else findInEntries entries rootPath marker maxDepth currentDepth
      else []

/-- The `for (const entry of entries)` loop body of
`findDirectoriesWithMarker`: recurse into non-dot directory entries at
depth `currentDepth + 1`, concatenating results in order. -/
def findInEntries (entries : FSEntries) (rootPath marker : Str)
    (maxDepth currentDepth : Nat) : List Str :=
  match entries with
  | FSEntries.nil => []
  | FSEntries.cons nm child rest =>
    (if child.isDir && !startsWithDot nm then
       findDirectoriesWithMarker child (rootPath ++ str "/" ++ nm) marker
         maxDepth (currentDepth + 1)
     else [])
    ++ findInEntries rest rootPath marker maxDepth currentDepth
end

/-- A linear directory chain of the given depth, ending in a directory
that contains a `.git` marker: `chainNode 0` is the marker directory
itself, `chainNode (k+1)` wraps it in a readable directory `a`. -/
def chainNode : Nat → FSNode
  | 0 => FSNode.dir true (FSEntries.cons (str ".git") FSNode.file FSEntries.nil)
  | k + 1 => FSNode.dir true (FSEntries.cons (str "a") (chainNode k) FSEntries.nil)

/-- The path at which the marker directory of `chainNode k` sits when the
search starts at `p` (each level appends `/a`, as `path.join` does). -/
def chainPath : Str → Nat → Str
  | p, 0 => p
  | p, k + 1 => chainPath (p ++ str "/" ++ str "a") k

/-- The nested-repository scenario of the spec: `root/a/.git` and
`root/a/sub/.git` both exist. -/
def nestedMarkerTree : FSNode :=
  FSNode.dir true (FSEntries.cons (str "a")
    (FSNode.dir true (FSEntries.cons (str ".git") FSNode.file
      (FSEntries.cons (str "sub")
        (FSNode.dir true
          (FSEntries.cons (str ".git") FSNode.file FSEntries.nil))
        FSEntries.nil)))
    FSEntries.nil)

/-- A directory containing a `.git` marker (used both as a search root
with a dot basename and as a dot-named child). -/
def dotRootNode : FSNode :=
  FSNode.dir true (FSEntries.cons (str ".git") FSNode.file FSEntries.nil)

/-- A readable directory whose only child is the marker directory above,
under the dot name `.hidden`. -/
def dotChildTree : FSNode :=
  FSNode.dir true (FSEntries.cons (str ".hidden") dotRootNode FSEntries.nil)

/-- Substring test (used to give a concrete executable model of the
simplest danger regex, `/mkfs/`, which matches iff the literal `mkfs`
occurs in the command). -/
def containsSub (sub : Str) : Str → Bool
  | [] => sub.isEmpty
  | c :: rest => sub.isPrefixOf (c :: rest) || containsSub sub rest

/-- The `/mkfs/` entry of `DANGEROUS_PATTERNS` (`src/config.ts` line 79). -/
def mkfsPat : DangerPat :=
  { test := fun c => containsSub (str "mkfs") c, source := str "/mkfs/" }

/-!
## Helper lemmas
-/

/-- `truncateOutput` is the identity (and reports no truncation) on output
within the cap. -/
theorem truncateOutput_short (s : Str) (m : Nat) (h : s.length ≤ m) :
    truncateOutput s m = (s, false) := by
  unfold truncateOutput
  rw [if_pos h]

/-- JS `s || ""` is `s`. -/
theorem jsOr_nil (s : Str) : jsOr s [] = s := by
  cases s <;> simp [jsOr]

/-- JS `s || t` is `s` when `s` is non-empty. -/
theorem jsOr_of_ne_nil (s t : Str) (h : s ≠ []) : jsOr s t = s := by
  cases s with
  | nil => exact absurd rfl h
  | cons c rest => simp [jsOr]

/-- A matched pattern list makes `checkCommandSafety` return a non-empty
block message. -/
theorem checkCommandSafety_matched (pats : List DangerPat) (c : Str)
    (h : ∃ p ∈ pats, p.test c = true) :
    checkCommandSafety pats c ≠ none
    ∧ (checkCommandSafety pats c).getD [] ≠ [] := by
  induction pats with
  | nil => simp at h
  | cons p rest ih =>
    by_cases hp : p.test c
    · constructor
      · simp [checkCommandSafety, hp]
      · simp only [checkCommandSafety, if_pos hp, Option.getD_some]
        intro habs
        have hmsg :
            (str "Command blocked: potentially dangerous pattern detected (").length
              = 57 := by decide
        have := congrArg List.length habs
        simp only [List.length_append, List.length_nil, hmsg] at this
        omega
    · have h' : ∃ q ∈ rest, q.test c = true := by
        rcases h with ⟨q, hq, hqt⟩
        rcases List.mem_cons.mp hq with hq1 | hq2
        · exact absurd (hq1 ▸ hqt) hp
        · exact ⟨q, hq2, hqt⟩
      have := ih h'
      exact ⟨by simpa [checkCommandSafety, hp] using this.1,
             by simpa [checkCommandSafety, hp] using this.2⟩

/-- An unmatched pattern list makes `checkCommandSafety` return
`undefined`. -/
theorem checkCommandSafety_clean (pats : List DangerPat) (c : Str)
    (h : ∀ p ∈ pats, p.test c = false) :
    checkCommandSafety pats c = none := by
  induction pats with
  | nil => rfl
  | cons p rest ih =>
    have hp : p.test c = false := h p (List.mem_cons_self p rest)
    simp only [checkCommandSafety, hp, Bool.false_eq_true, if_false]
    exact ih (fun q hq => h q (List.mem_cons_of_mem p hq))

theorem truncMarker_length : truncMarker.length = 30 := by decide

/-- Shape of `truncateOutput` on over-long input when the half-window is
positive. -/
theorem truncateOutput_long (s : Str) (m : Nat) (h : m < s.length)
    (hh : m / 2 ≠ 0) :
    truncateOutput s m
      = (s.take (m / 2) ++ truncMarker ++ s.drop (s.length - m / 2), true) := by
  unfold truncateOutput
  rw [if_neg (by omega)]
  simp only [jsSliceNeg, if_neg hh]

/-- Shape of `truncateOutput` on over-long input when the half-window is
zero: the "tail" slice is the whole string. -/
theorem truncateOutput_zero_half (s : Str) (m : Nat) (h : m < s.length)
    (hh : m / 2 = 0) :
    truncateOutput s m = (truncMarker ++ s, true) := by
  unfold truncateOutput
  rw [if_neg (by omega)]
  simp [jsSliceNeg, hh]

/-- **C3 counterexample.** The claim as stated fails for `maxChars = 1`
(and `0`): `floor(1/2) = 0` makes the tail `slice(-0)` return the whole
string, so the "truncated" text is marker-plus-everything and re-truncating
it changes it again — idempotence fails at `s = "ab"`, `maxChars = 1`. -/
theorem truncateOutput_one_not_idempotent :
    (truncateOutput (truncateOutput (str "ab") 1).1 1).1
      ≠ (truncateOutput (str "ab") 1).1 := by decide

/-- **C3 (amended: `maxChars ≥ 2`).** For every string longer than
`maxChars ≥ 2`, `truncateOutput` returns the first `floor(maxChars/2)`
characters, the fixed marker and the last `floor(maxChars/2)` characters
with `wasTruncated = true`; the total length is the deterministic
`2*floor(maxChars/2) + 30`; and re-truncating the text with the same limit
returns it unchanged. -/
theorem truncateOutput_idem (s : Str) (m : Nat) (h2 : 2 ≤ m)
    (hlen : m < s.length) :
    truncateOutput s m
      = (s.take (m / 2) ++ truncMarker ++ s.drop (s.length - m / 2), true)
    ∧ (truncateOutput s m).1.length = 2 * (m / 2) + 30
    ∧ truncateOutput (truncateOutput s m).1 m
      = ((truncateOutput s m).1, true) := by
  have hh : m / 2 ≠ 0 := by omega
  have ht : (s.take (m / 2)).length = m / 2 := by rw [List.length_take]; omega
  have hd : (s.drop (s.length - m / 2)).length = m / 2 := by
    rw [List.length_drop]; omega
  have hstruct := truncateOutput_long s m hlen hh
  have hlen2 :
      (s.take (m / 2) ++ truncMarker ++ s.drop (s.length - m / 2)).length
        = 2 * (m / 2) + 30 := by
    simp only [List.length_append, ht, hd, truncMarker_length]; omega
  refine ⟨hstruct, ?_, ?_⟩
  · rw [hstruct]; exact hlen2
  · rw [hstruct]
    have hlong :
        m < (s.take (m / 2) ++ truncMarker ++ s.drop (s.length - m / 2)).length := by
      rw [hlen2]; omega
    rw [truncateOutput_long _ m hlong hh]
    have htake :
        (s.take (m / 2) ++ truncMarker ++ s.drop (s.length - m / 2)).take (m / 2)
          = s.take (m / 2) := by
      rw [List.append_assoc]
      exact List.take_left' ht
    have hdrop :
        (s.take (m / 2) ++ truncMarker ++ s.drop (s.length - m / 2)).drop
            ((s.take (m / 2) ++ truncMarker ++ s.drop (s.length - m / 2)).length
              - m / 2)
          = s.drop (s.length - m / 2) := by
      refine List.drop_left' ?_
      simp only [List.length_append, ht, truncMarker_length, hlen2, hd]
      omega
    rw [htake, hdrop]

/-- **C3 witness.** The amended idempotence at `s = "abcd"`,
`maxChars = 2`. -/
theorem truncateOutput_idem_inst :
    truncateOutput (str "abcd") 2
      = ((str "abcd").take (2 / 2) ++ truncMarker
          ++ (str "abcd").drop ((str "abcd").length - 2 / 2), true)
    ∧ (truncateOutput (str "abcd") 2).1.length = 2 * (2 / 2) + 30
    ∧ truncateOutput (truncateOutput (str "abcd") 2).1 2
      = ((truncateOutput (str "abcd") 2).1, true) :=
  truncateOutput_idem (str "abcd") 2 (by decide) (by decide)

/-- **C8.** The truncated result always exceeds the stated cap: for
`maxChars ≥ 2` its length is `2*floor(maxChars/2) + 30 > maxChars`; and
for `maxChars ≤ 1` the half-window is `0`, `slice(-0)` returns the whole
string, so the "truncated" result is the marker followed by the entire
output and is strictly longer than the input. -/
theorem truncateOutput_overshoots_cap :
    (∀ (s : Str) (m : Nat), 2 ≤ m → m < s.length →
      (truncateOutput s m).1.length = 2 * (m / 2) + 30
      ∧ m < (truncateOutput s m).1.length)
    ∧ (∀ (s : Str) (m : Nat), m ≤ 1 → m < s.length →
      (truncateOutput s m).1 = truncMarker ++ s
      ∧ s.length < (truncateOutput s m).1.length) := by
  constructor
  · intro s m h2 hlen
    have hh : m / 2 ≠ 0 := by omega
    have ht : (s.take (m / 2)).length = m / 2 := by
      rw [List.length_take]; omega
    have hd : (s.drop (s.length - m / 2)).length = m / 2 := by
      rw [List.length_drop]; omega
    rw [truncateOutput_long s m hlen hh]
    constructor
    · simp only [List.length_append, ht, hd, truncMarker_length]; omega
    · simp only [List.length_append, ht, hd, truncMarker_length]; omega
  · intro s m h1 hlen
    have hh : m / 2 = 0 := by omega
    rw [truncateOutput_zero_half s m hlen hh]
    constructor
    · rfl
    · simp only [List.length_append, truncMarker_length]; omega

/-- **C8 witness.** Both regimes at concrete inputs: `"abcd"` capped at
`2`, and `"ab"` capped at `1`. -/
theorem truncateOutput_overshoots_cap_inst :
    ((truncateOutput (str "abcd") 2).1.length = 2 * (2 / 2) + 30
      ∧ 2 < (truncateOutput (str "abcd") 2).1.length)
    ∧ ((truncateOutput (str "ab") 1).1 = truncMarker ++ str "ab"
      ∧ (str "ab").length < (truncateOutput (str "ab") 1).1.length) :=
  ⟨truncateOutput_overshoots_cap.1 (str "abcd") 2 (by decide) (by decide),
   truncateOutput_overshoots_cap.2 (str "ab") 1 (by decide) (by decide)⟩

/-- A readable directory that contains the marker is emitted alone — the
early `return` fires before any recursion into subdirectories. -/
theorem findDirs_found (entries : FSEntries) (p marker : Str)
    (maxD curD : Nat) (hd : curD ≤ maxD) (hm : hasEntry entries marker = true) :
    findDirectoriesWithMarker (FSNode.dir true entries) p marker maxD curD
      = [p] := by
  rw [findDirectoriesWithMarker]
  simp [show ¬curD > maxD from by omega, hm]

/-- An unreadable directory contributes nothing (the `readdirSync` throw
is caught with no results pushed). -/
theorem findDirs_unreadable (entries : FSEntries) (p marker : Str)
    (maxD curD : Nat) :
    findDirectoriesWithMarker (FSNode.dir false entries) p marker maxD curD
      = [] := by
  rw [findDirectoriesWithMarker]
  by_cases h : curD > maxD <;> simp [h]

/-- Entries whose name begins with a dot are skipped by the loop. -/
theorem findInEntries_dot (nm : Str) (child : FSNode) (rest : FSEntries)
    (p marker : Str) (maxD curD : Nat) (h : startsWithDot nm = true) :
    findInEntries (FSEntries.cons nm child rest) p marker maxD curD
      = findInEntries rest p marker maxD curD := by
  rw [findInEntries]
  simp [h]

/-- An unreadable child is silently skipped: the loop proceeds to the
remaining siblings with nothing added. -/
theorem findInEntries_unreadable (nm : Str) (es : FSEntries)
    (rest : FSEntries) (p marker : Str) (maxD curD : Nat) :
    findInEntries (FSEntries.cons nm (FSNode.dir false es) rest) p marker
        maxD curD
      = findInEntries rest p marker maxD curD := by
  rw [findInEntries]
  by_cases h : startsWithDot nm <;> simp [h, FSNode.isDir, findDirs_unreadable]

/-- The depth cutoff: nothing is reported once `currentDepth` exceeds
`maxDepth`. -/
theorem findDirs_depth (node : FSNode) (p marker : Str) (maxD curD : Nat)
    (h : maxD < curD) :
    findDirectoriesWithMarker node p marker maxD curD = [] := by
  rw [findDirectoriesWithMarker.eq_def]
  simp [show curD > maxD from h]

/-- The chain node is always a directory. -/
theorem chainNode_isDir (k : Nat) : (chainNode k).isDir = true := by
  cases k <;> simp [chainNode, FSNode.isDir]

/-- Search down a linear chain: the marker directory at depth `k` below a
start depth of `curD` is found exactly when `curD + k ≤ maxDepth` — the
root itself counts as depth `curD`, so the bound is inclusive of the
root. -/
theorem findDirs_chain (k : Nat) :
    ∀ (curD : Nat) (p : Str) (maxD : Nat),
      findDirectoriesWithMarker (chainNode k) p (str ".git") maxD curD
        = if curD + k ≤ maxD then [chainPath p k] else [] := by
  induction k with
  | zero =>
    intro curD p maxD
    rw [chainNode, findDirectoriesWithMarker]
    by_cases h : curD > maxD
    · simp [h, show ¬curD + 0 ≤ maxD from by omega]
    · simp [show ¬curD > maxD from h, hasEntry, chainPath,
            show curD ≤ maxD from by omega]
  | succ k ih =>
    intro curD p maxD
    rw [chainNode, findDirectoriesWithMarker]
    by_cases h : curD > maxD
    · simp [h, show ¬curD + (k + 1) ≤ maxD from by omega]
    · have hdot : startsWithDot (str "a") = false := by decide
      have hmark :
          hasEntry (FSEntries.cons (str "a") (chainNode k) FSEntries.nil)
            (str ".git") = false := by
        have hane : ¬(str "a" = str ".git") := by decide
        simp [hasEntry, hane]
      have hstep := ih (curD + 1) (p ++ str "/" ++ str "a") maxD
      rw [if_neg h]
      simp only [hmark, Bool.false_eq_true, if_false, if_true,
                 findInEntries, chainNode_isDir, hdot, Bool.not_false,
                 Bool.and_self, List.append_nil, hstep]
      rw [show chainPath p (k + 1)
            = chainPath (p ++ str "/" ++ str "a") k from rfl]
      by_cases h2 : curD + 1 + k ≤ maxD
      · rw [if_pos h2, if_pos (by omega : curD + (k + 1) ≤ maxD)]
      · rw [if_neg h2, if_neg (by omega : ¬curD + (k + 1) ≤ maxD)]

/-- **C2.** A command matching any danger pattern is blocked before the
dry-run check and before the spawn: no process is ever spawned (regardless
of `dry_run` — the options are universally quantified), and the result is
`exit_code -1`, empty streams, `timed_out = false`, with the warning set to
the non-empty violation message of the safety guard. -/
theorem execCommand_blocked (pats : List DangerPat) (opts : CommandOptions)
    (outcome : ExecOutcome) (h : ∃ p ∈ pats, p.test opts.command = true) :
    spawnsProcess pats opts = false
    ∧ execCommand pats opts outcome
        = { stdout := [], stderr := [], exit_code := -1, timed_out := false,
            cwd := opts.cwd, truncated := false,
            warning := checkCommandSafety pats opts.command }
    ∧ checkCommandSafety pats opts.command ≠ none
    ∧ (checkCommandSafety pats opts.command).getD [] ≠ [] := by
  obtain ⟨hne, hgetd⟩ := checkCommandSafety_matched pats opts.command h
  obtain ⟨w, hw⟩ := Option.ne_none_iff_exists'.mp hne
  refine ⟨?_, ?_, hne, hgetd⟩
  · simp [spawnsProcess, execCommandPre, hw]
  · simp [execCommand, execCommandPre, hw]

/-- **C2 witness.** `mkfs /dev/disk0` against the `/mkfs/` pattern, with
`dry_run = true`, never reaches the spawn and is blocked with the guard
result. -/
theorem execCommand_blocked_inst :
    spawnsProcess [mkfsPat]
        { command := str "mkfs /dev/disk0", cwd := str "/tmp",
          timeout_seconds := 10, max_output_chars := 10000,
          dry_run := true } = false
    ∧ execCommand [mkfsPat]
        { command := str "mkfs /dev/disk0", cwd := str "/tmp",
          timeout_seconds := 10, max_output_chars := 10000,
          dry_run := true } (ExecOutcome.ok [] [])
        = { stdout := [], stderr := [], exit_code := -1, timed_out := false,
            cwd := str "/tmp", truncated := false,
            warning := checkCommandSafety [mkfsPat] (str "mkfs /dev/disk0") }
    ∧ checkCommandSafety [mkfsPat] (str "mkfs /dev/disk0") ≠ none
    ∧ (checkCommandSafety [mkfsPat] (str "mkfs /dev/disk0")).getD [] ≠ [] :=
  execCommand_blocked [mkfsPat]
    { command := str "mkfs /dev/disk0", cwd := str "/tmp",
      timeout_seconds := 10, max_output_chars := 10000, dry_run := true }
    (ExecOutcome.ok [] []) (by decide)

/-- **C6.** A safe command with `dry_run = true` spawns no process and
returns `exit_code 0`, empty streams, `timed_out = false`,
`truncated = false`, and a warning that contains both the command string
and the working directory. -/
theorem execCommand_dry_run (pats : List DangerPat) (opts : CommandOptions)
    (outcome : ExecOutcome)
    (hno : ∀ p ∈ pats, p.test opts.command = false)
    (hdry : opts.dry_run = true) :
    spawnsProcess pats opts = false
    ∧ execCommand pats opts outcome
        = { stdout := [], stderr := [], exit_code := 0, timed_out := false,
            cwd := opts.cwd, truncated := false,
            warning := some (dryRunWarning opts.command opts.cwd) }
    ∧ (∃ a b, dryRunWarning opts.command opts.cwd = a ++ opts.command ++ b)
    ∧ (∃ a b, dryRunWarning opts.command opts.cwd = a ++ opts.cwd ++ b) := by
  have hsafe := checkCommandSafety_clean pats opts.command hno
  refine ⟨?_, ?_, ?_, ?_⟩
  · simp [spawnsProcess, execCommandPre, hsafe, hdry]
  · simp [execCommand, execCommandPre, hsafe, hdry]
  · exact ⟨str "[DRY RUN] Would execute: ",
           str " (in " ++ opts.cwd ++ str ")",
           by simp [dryRunWarning, List.append_assoc]⟩
  · exact ⟨str "[DRY RUN] Would execute: " ++ opts.command ++ str " (in ",
           str ")", by simp [dryRunWarning, List.append_assoc]⟩

/-- **C6 witness.** `echo hi` in `/tmp` with `dry_run = true`. -/
theorem execCommand_dry_run_inst :
    spawnsProcess [mkfsPat]
        { command := str "echo hi", cwd := str "/tmp",
          timeout_seconds := 10, max_output_chars := 10000,
          dry_run := true } = false
    ∧ execCommand [mkfsPat]
        { command := str "echo hi", cwd := str "/tmp",
          timeout_seconds := 10, max_output_chars := 10000,
          dry_run := true } (ExecOutcome.ok [] [])
        = { stdout := [], stderr := [], exit_code := 0, timed_out := false,
            cwd := str "/tmp", truncated := false,
            warning := some (dryRunWarning (str "echo hi") (str "/tmp")) }
    ∧ (∃ a b, dryRunWarning (str "echo hi") (str "/tmp")
        = a ++ str "echo hi" ++ b)
    ∧ (∃ a b, dryRunWarning (str "echo hi") (str "/tmp")
        = a ++ str "/tmp" ++ b) :=
  execCommand_dry_run [mkfsPat]
    { command := str "echo hi", cwd := str "/tmp",
      timeout_seconds := 10, max_output_chars := 10000, dry_run := true }
    (ExecOutcome.ok [] []) (by decide) rfl

/-- **C5.** When the spawned command is killed by the timeout (the exec
error carries `killed = true`), the result has `timed_out = true`, a
synthetic stderr message naming the configured duration, and `exit_code`
left at its default `0` (no fabricated failure code).  The fit hypothesis
keeps the synthetic message under the output cap so it is returned
verbatim (it always is with the 10,000-char default). -/
theorem execCommand_timeout (pats : List DangerPat) (opts : CommandOptions)
    (sig : Option Str) (so se msg : Str) (code : Option Int)
    (hsafe : checkCommandSafety pats opts.command = none)
    (hdry : opts.dry_run = false)
    (hfit : (timeoutMsg opts.timeout_seconds).length ≤ opts.max_output_chars) :
    execCommand pats opts (ExecOutcome.error true sig so se msg code)
      = { stdout := [], stderr := timeoutMsg opts.timeout_seconds,
          exit_code := 0, timed_out := true, cwd := opts.cwd,
          truncated := false, warning := none }
    ∧ (∃ a b, timeoutMsg opts.timeout_seconds
        = a ++ str (toString opts.timeout_seconds) ++ b) := by
  constructor
  · simp [execCommand, execCommandPre, hsafe, hdry,
          truncateOutput_short _ _ hfit,
          truncateOutput_short ([] : Str) opts.max_output_chars (by simp)]
  · exact ⟨str "Command timed out after ", str " seconds",
           by simp [timeoutMsg, List.append_assoc]⟩

/-- **C5 witness.** A 10-second timeout kill of `sleep 60`. -/
theorem execCommand_timeout_inst :
    execCommand [mkfsPat]
        { command := str "sleep 60", cwd := str "/tmp",
          timeout_seconds := 10, max_output_chars := 10000,
          dry_run := false }
        (ExecOutcome.error true (some (str "SIGTERM")) [] [] [] none)
      = { stdout := [], stderr := timeoutMsg 10, exit_code := 0,
          timed_out := true, cwd := str "/tmp", truncated := false,
          warning := none }
    ∧ (∃ a b, timeoutMsg 10 = a ++ str (toString 10) ++ b) :=
  execCommand_timeout [mkfsPat]
    { command := str "sleep 60", cwd := str "/tmp", timeout_seconds := 10,
      max_output_chars := 10000, dry_run := false }
    (some (str "SIGTERM")) [] [] [] none (by decide) rfl (by decide)

/-- **C9.** The timeout branch fires on `err.killed || err.signal ===
"SIGTERM"`, so a child killed by an *external* SIGTERM (`killed = false`,
`signal = "SIGTERM"`, with whatever output it had produced) yields exactly
the same result as a genuine timeout kill: `timed_out = true`, the
captured stdout/stderr discarded, stderr replaced by the synthetic timeout
message — at the public interface the two are indistinguishable. -/
theorem execCommand_sigterm_like_timeout (pats : List DangerPat)
    (opts : CommandOptions) (so se msg : Str) (code : Option Int)
    (hsafe : checkCommandSafety pats opts.command = none)
    (hdry : opts.dry_run = false) :
    execCommand pats opts
        (ExecOutcome.error false (some (str "SIGTERM")) so se msg code)
      = execCommand pats opts (ExecOutcome.error true none [] [] [] none)
    ∧ (execCommand pats opts
        (ExecOutcome.error false (some (str "SIGTERM")) so se msg code)).timed_out
        = true
    ∧ (execCommand pats opts
        (ExecOutcome.error false (some (str "SIGTERM")) so se msg code)).stdout
        = []
    ∧ (execCommand pats opts
        (ExecOutcome.error false (some (str "SIGTERM")) so se msg code)).stderr
        = (truncateOutput (timeoutMsg opts.timeout_seconds)
            opts.max_output_chars).1 := by
  refine ⟨?_, ?_, ?_, ?_⟩ <;>
    simp [execCommand, execCommandPre, hsafe, hdry,
          truncateOutput_short ([] : Str) opts.max_output_chars (by simp)]

/-- **C9 witness.** An externally SIGTERM-killed `make build` that had
already produced output is reported as a timeout with that output
discarded. -/
theorem execCommand_sigterm_like_timeout_inst :
    execCommand [mkfsPat]
        { command := str "make build", cwd := str "/tmp",
          timeout_seconds := 10, max_output_chars := 10000,
          dry_run := false }
        (ExecOutcome.error false (some (str "SIGTERM")) (str "partial out")
          (str "some err") (str "killed") none)
      = execCommand [mkfsPat]
          { command := str "make build", cwd := str "/tmp",
            timeout_seconds := 10, max_output_chars := 10000,
            dry_run := false }
          (ExecOutcome.error true none [] [] [] none)
    ∧ (execCommand [mkfsPat]
        { command := str "make build", cwd := str "/tmp",
          timeout_seconds := 10, max_output_chars := 10000,
          dry_run := false }
        (ExecOutcome.error false (some (str "SIGTERM")) (str "partial out")
          (str "some err") (str "killed") none)).timed_out = true
    ∧ (execCommand [mkfsPat]
        { command := str "make build", cwd := str "/tmp",
          timeout_seconds := 10, max_output_chars := 10000,
          dry_run := false }
        (ExecOutcome.error false (some (str "SIGTERM")) (str "partial out")
          (str "some err") (str "killed") none)).stdout = []
    ∧ (execCommand [mkfsPat]
        { command := str "make build", cwd := str "/tmp",
          timeout_seconds := 10, max_output_chars := 10000,
          dry_run := false }
        (ExecOutcome.error false (some (str "SIGTERM")) (str "partial out")
          (str "some err") (str "killed") none)).stderr
        = (truncateOutput (timeoutMsg 10) 10000).1 :=
  execCommand_sigterm_like_timeout [mkfsPat]
    { command := str "make build", cwd := str "/tmp", timeout_seconds := 10,
      max_output_chars := 10000, dry_run := false }
    (str "partial out") (str "some err") (str "killed") none
    (by decide) rfl

/-- **C7.** A command that ran and failed — rejected exec promise with
`killed = false` and a signal other than `SIGTERM` (covering non-zero
exits and other signal kills) — produces an ordinary `CommandResult`
carrying the captured streams and the exit code (`err.code ?? 1`), with no
timeout flag.  `execCommand` is a total function of the outcome: every
rejection is caught and converted to a result, so the call itself never
fails.  (Stream-fit and non-empty-stderr hypotheses select the
pass-through case of truncation and of the `||` coalescing.) -/
theorem execCommand_nonzero_exit (pats : List DangerPat)
    (opts : CommandOptions) (sig : Option Str) (so se msg : Str)
    (code : Option Int)
    (hsafe : checkCommandSafety pats opts.command = none)
    (hdry : opts.dry_run = false)
    (hsig : sig ≠ some (str "SIGTERM"))
    (hso : so.length ≤ opts.max_output_chars)
    (hse : se.length ≤ opts.max_output_chars)
    (hsene : se ≠ []) :
    execCommand pats opts (ExecOutcome.error false sig so se msg code)
      = { stdout := so, stderr := se, exit_code := code.getD 1,
          timed_out := false, cwd := opts.cwd, truncated := false,
          warning := none } := by
  have h1 : jsOr so [] = so := jsOr_nil so
  have h2 : jsOr se (jsOr msg (str "Unknown error")) = se :=
    jsOr_of_ne_nil _ _ hsene
  simp [execCommand, execCommandPre, hsafe, hdry, hsig, h1, h2,
        truncateOutput_short so opts.max_output_chars hso,
        truncateOutput_short se opts.max_output_chars hse]

/-- **C7 witness.** A failing `npm test` run (exit code 2, diagnostics on
both streams) is returned as an ordinary result. -/
theorem execCommand_nonzero_exit_inst :
    execCommand [mkfsPat]
        { command := str "npm test", cwd := str "/tmp",
          timeout_seconds := 10, max_output_chars := 10000,
          dry_run := false }
        (ExecOutcome.error false none (str "1 failing") (str "test failed")
          (str "Command failed") (some 2))
      = { stdout := str "1 failing", stderr := str "test failed",
          exit_code := (some (2 : Int)).getD 1, timed_out := false,
          cwd := str "/tmp", truncated := false, warning := none } :=
  execCommand_nonzero_exit [mkfsPat]
    { command := str "npm test", cwd := str "/tmp", timeout_seconds := 10,
      max_output_chars := 10000, dry_run := false }
    none (str "1 failing") (str "test failed") (str "Command failed")
    (some 2) (by decide) rfl (by decide) (by decide) (by decide) (by decide)

/-- **C4.** The depth-first search: (i) a readable directory containing
the marker is emitted and never descended into; (ii) hence in the nested
scenario `root/a/.git` + `root/a/sub/.git` only `root/a` is reported;
(iii) dot-named entries are skipped; (iv) an unreadable directory yields
nothing; (v) and is skipped silently without aborting its siblings;
(vi) the recursion stops once `currentDepth` exceeds `maxDepth`;
(vii) down a linear chain, a marker at depth `k` under the root is found
iff `k ≤ maxDepth` — the bound counts the root as depth 0, inclusive. -/
theorem findDirectoriesWithMarker_correct :
    (∀ (entries : FSEntries) (p marker : Str) (maxD curD : Nat),
        curD ≤ maxD → hasEntry entries marker = true →
        findDirectoriesWithMarker (FSNode.dir true entries) p marker maxD
            curD = [p])
    ∧ findDirectoriesWithMarker nestedMarkerTree (str "root") (str ".git")
        3 0 = [str "root/a"]
    ∧ (∀ (nm : Str) (child : FSNode) (rest : FSEntries) (p marker : Str)
        (maxD curD : Nat), startsWithDot nm = true →
        findInEntries (FSEntries.cons nm child rest) p marker maxD curD
          = findInEntries rest p marker maxD curD)
    ∧ (∀ (entries : FSEntries) (p marker : Str) (maxD curD : Nat),
        findDirectoriesWithMarker (FSNode.dir false entries) p marker maxD
            curD = [])
    ∧ (∀ (nm : Str) (es rest : FSEntries) (p marker : Str)
        (maxD curD : Nat),
        findInEntries (FSEntries.cons nm (FSNode.dir false es) rest) p
            marker maxD curD
          = findInEntries rest p marker maxD curD)
    ∧ (∀ (node : FSNode) (p marker : Str) (maxD curD : Nat), maxD < curD →
        findDirectoriesWithMarker node p marker maxD curD = [])
    ∧ (∀ (k : Nat) (p : Str) (maxD : Nat),
        findDirectoriesWithMarker (chainNode k) p (str ".git") maxD 0
          = if k ≤ maxD then [chainPath p k] else []) := by
  refine ⟨findDirs_found, by decide, findInEntries_dot, findDirs_unreadable,
          findInEntries_unreadable, findDirs_depth, ?_⟩
  intro k p maxD
  have h := findDirs_chain k 0 p maxD
  simpa using h

/-- **C4 witness.** The hypothesis-bearing parts at concrete inputs: a
marker directory found at the root of the search, a dot-named child
skipped, and the depth cutoff. -/
theorem findDirectoriesWithMarker_correct_inst :
    findDirectoriesWithMarker
        (FSNode.dir true
          (FSEntries.cons (str ".git") FSNode.file FSEntries.nil))
        (str "proj") (str ".git") 3 0 = [str "proj"]
    ∧ findInEntries (FSEntries.cons (str ".cache") dotRootNode FSEntries.nil)
        (str "r") (str ".git") 3 1
      = findInEntries FSEntries.nil (str "r") (str ".git") 3 1
    ∧ findDirectoriesWithMarker dotRootNode (str "deep") (str ".git") 1 2
        = [] :=
  ⟨findDirectoriesWithMarker_correct.1
      (FSEntries.cons (str ".git") FSNode.file FSEntries.nil) (str "proj")
      (str ".git") 3 0 (by decide) (by decide),
   findDirectoriesWithMarker_correct.2.2.1 (str ".cache") dotRootNode
      FSEntries.nil (str "r") (str ".git") 3 1 (by decide),
   findDirectoriesWithMarker_correct.2.2.2.2.2.1 dotRootNode (str "deep")
      (str ".git") 1 2 (by decide)⟩

/-- **C10.** The root directory itself is tested for the marker before any
entry filtering, for *any* root path — including one whose basename starts
with a dot — while the dot-name skip applies only to child entries met
during traversal: the very same marker directory is emitted when it is the
search root at `/r/.hidden` and invisible when it sits behind the
dot-named child `.hidden` of the root. -/
theorem findDirs_root_not_dot_filtered :
    (∀ (p : Str) (entries : FSEntries) (marker : Str) (maxD : Nat),
        hasEntry entries marker = true →
        findDirectoriesWithMarker (FSNode.dir true entries) p marker maxD 0
          = [p])
    ∧ findDirectoriesWithMarker dotRootNode (str "/r/.hidden")
        (str ".git") 3 0 = [str "/r/.hidden"]
    ∧ findDirectoriesWithMarker dotChildTree (str "/r") (str ".git") 3 0
        = [] := by
  exact ⟨fun p entries marker maxD hm =>
           findDirs_found entries p marker maxD 0 (Nat.zero_le _) hm,
         by decide, by decide⟩

/-- **C10 witness.** A dot-basename root (`/x/.config`) with the marker,
searched with `maxDepth = 0`, is emitted. -/
theorem findDirs_root_not_dot_filtered_inst :
    findDirectoriesWithMarker
        (FSNode.dir true
          (FSEntries.cons (str ".git") FSNode.file FSEntries.nil))
        (str "/x/.config") (str ".git") 0 0 = [str "/x/.config"] :=
  findDirs_root_not_dot_filtered.1 (str "/x/.config")
    (FSEntries.cons (str ".git") FSNode.file FSEntries.nil) (str ".git") 0
    (by decide)

/-- **C1.** The spec requires directory-boundary aware root containment
(root `/home/dev` must reject `/home/devtools`), but the source uses the
naive `String.startsWith`: with roots `["/home/dev"]`, `resolveSafePath`
accepts the sibling path `/home/devtools`, which no root contains
segment-wise.  The code contradicts the spec (and its own module doc,
"ensure that filesystem operations only access allowed directories"). -/
theorem resolveSafePath_accepts_sibling_devtools :
    resolveSafePath [str "/home/dev"] (str "/home/devtools")
      = some (str "/home/devtools")
    ∧ specAllowed [str "/home/dev"] (str "/home/devtools") = false := by
  decide
